import Mathlib

/-!
Shallow embedding of the jas convention-over-configuration HTTP router
(route-table construction, runtime path resolution, and the error/logging
subsystem) together with proofs about the claims of its specification.

Go strings are modelled as Lean `String` values; all identifiers and paths
handled by the router are ASCII, so Go byte indexing/slicing coincides with
character indexing, and `strings.ToLower` / `strings.ToUpper` coincide with
ASCII case mapping.
-/

namespace Jas

/-- Models ASCII lowering of one character; agrees with Go `strings.ToLower`
on ASCII input (the only input the router produces). -/
def toLowerChar (c : Char) : Char :=
  if 'A' ≤ c ∧ c ≤ 'Z' then Char.ofNat (c.toNat + 32) else c

/-- Models ASCII raising of one character; agrees with Go `strings.ToUpper`
on ASCII input. -/
def toUpperChar (c : Char) : Char :=
  if 'a' ≤ c ∧ c ≤ 'z' then Char.ofNat (c.toNat - 32) else c

/-- Models Go `strings.ToLower` on ASCII strings. -/
def strToLower (s : String) : String := String.mk (s.data.map toLowerChar)

/-- Models Go `strings.ToUpper` on ASCII strings. -/
def strToUpper (s : String) : String := String.mk (s.data.map toUpperChar)

/-- Models the Go byte-slice `s[:n]` on ASCII strings. -/
def strTake (s : String) (n : Nat) : String := String.mk (s.data.take n)

/-- Models the Go byte-slice `s[n:]` on ASCII strings. -/
def strDrop (s : String) (n : Nat) : String := String.mk (s.data.drop n)

/-- Models Go `len(s)` on ASCII strings. -/
def strLen (s : String) : Nat := s.data.length

/-- Accumulator loop for single-character `strings.Split`. -/
def splitCharAux (sep : Char) (cur : List Char) : List Char → List (List Char)
  | [] => [cur.reverse]
  | c :: cs =>
    if c = sep then cur.reverse :: splitCharAux sep [] cs
    else splitCharAux sep (c :: cur) cs

/-- Models Go `strings.Split(s, sep)` for a one-character separator:
`Split("", sep) = [""]`, empty segments are kept. -/
def splitChar (sep : Char) (s : String) : List String :=
  (splitCharAux sep [] s.data).map fun l => String.mk l

/-- Models Go `strings.Join(l, "/")`. -/
def joinSlash : List String → String
  | [] => ""
  | [s] => s
  | s :: rest => s ++ "/" ++ joinSlash rest

/-- Whether `pat` is an initial run of `l` (plain executable form). -/
def leadsWith : List Char → List Char → Bool
  | [], _ => true
  | _ :: _, [] => false
  | a :: as, b :: bs => a == b && leadsWith as bs

/-- Whether the character sequence `pat` occurs contiguously inside the list. -/
def containsSeq (pat : List Char) : List Char → Bool
  | [] => pat.isEmpty
  | c :: cs => leadsWith pat (c :: cs) || containsSeq pat cs

/-- Number of occurrences of character `c` in `s`. -/
def countChar (c : Char) (s : String) : Nat := s.data.count c

/-- Whether a route key contains an id placeholder segment `/:id`. -/
def hasIdSeg (s : String) : Bool := containsSeq "/:id".data s.data

/-- Digit loop of Go `strconv.ParseUint(s, 10, 64)`.
Returns the accumulated value and a result code: `0` means success, `1`
syntax error (value `0`), `2` range error (value `2^64 - 1`).  The cutoff
constant is `(2^64-1)/10 + 1`, exactly as in the Go source; scanning stops
at the first bad character (syntax) or the first overflowing step (range),
whichever comes first. -/
def parseUint64Loop (n : Nat) : List Char → Nat × Nat
  | [] => (n, 0)
  | c :: cs =>
    if ¬ ('0' ≤ c ∧ c ≤ '9') then (0, 1)
    else if 1844674407370955162 ≤ n then (2 ^ 64 - 1, 2)
    else
      let n1 := n * 10 + (c.toNat - 48)
      if 2 ^ 64 - 1 < n1 then (2 ^ 64 - 1, 2)
      else parseUint64Loop n1 cs

/-- Models Go `strconv.ParseInt(s, 10, 64)`.  Returns the `int64` result and
`true` when `err == nil`.  On syntax errors the value is `0`; on range
errors the value is the clamped `2^63 - 1` (positive) or `-2^63`
(negative), mirroring Go, which matters because the resolver keeps the
returned value even when `err != nil`. -/
def parseInt64 (s : String) : Int × Bool :=
  match s.data with
  | [] => (0, false)
  | c0 :: rest =>
    let neg := c0 = '-'
    let ds := if c0 = '+' ∨ c0 = '-' then rest else c0 :: rest
    if ds.isEmpty then (0, false)
    else
      let pr := parseUint64Loop 0 ds
      if pr.2 = 1 then (0, false)
      else
        if ¬ neg ∧ 2 ^ 63 ≤ pr.1 then ((2 ^ 63 - 1 : Int), false)
        else if neg ∧ 2 ^ 63 < pr.1 then (-(2 ^ 63 : Int), false)
        else ((if neg then -(pr.1 : Int) else (pr.1 : Int)), true)

/-- The package variable `WordSeparator`, modelled at its default `"_"`. -/
def WordSeparator : String := "_"

/-- Character loop of `convertName`: before every uppercase letter that is
not the first character of the identifier the word separator is written,
then the character itself (lowering happens afterwards, as in the source,
which calls `strings.ToLower` on the whole buffer). -/
def convertNameAux : Bool → List Char → List Char
  | _, [] => []
  | first, c :: cs =>
    (if first = false ∧ 'A' ≤ c ∧ c ≤ 'Z' then WordSeparator.data else []) ++
      c :: convertNameAux false cs

/-- Models `convertName` from the router source: insert the word separator
before each uppercase letter except at the first character, then lowercase
everything. -/
def convertName (name : String) : String :=
  strToLower (String.mk (convertNameAux true name.data))

/-- Modelled from the spec (NameConverter contract, for comparison with the
source's `convertName`): produce a lowercase token string with the
separator inserted before every uppercase letter except the first
character, with no special-casing of consecutive uppercase letters. -/
def convertNameSpecAux : Bool → List Char → List Char
  | _, [] => []
  | first, c :: cs =>
    (if first = false ∧ 'A' ≤ c ∧ c ≤ 'Z' then ['_'] else []) ++
      toLowerChar c :: convertNameSpecAux false cs

/-- Modelled from the spec: the NameConverter as the spec words it. -/
def convertNameSpec (s : String) : String :=
  String.mk (convertNameSpecAux true s.data)

/-- A reflected Go method: its name and the shape data `validateMethod`
inspects (`NumIn` including the receiver, `NumOut`, and whether the single
parameter is `*jas.Context`). -/
structure GoMethod where
  name : String
  numIn : Nat
  numOut : Nat
  argIsContext : Bool
deriving DecidableEq

/-- A reflected resource: its type name (`reflect.TypeOf(v).Elem().Name()`),
the `Gap()` string when the resource implements `ResourceWithGap`, and its
method set in reflection order. -/
structure Resource where
  name : String
  gap : Option String
  methods : List GoMethod
deriving DecidableEq

/-- Models `validateMethod`: exported first letter, exactly one parameter
besides the receiver, that parameter of type `*jas.Context`, no results.
Go method names are never empty; the empty case is unreachable. -/
def validateMethod (m : GoMethod) : Bool :=
  match m.name.data with
  | [] => false
  | c :: _ =>
    if c < 'A' ∨ 'Z' < c then false
    else if m.numIn ≠ 2 then false
    else if m.numOut ≠ 0 then false
    else if m.argIsContext = false then false
    else true

/-- A handler identity standing in for the `reflect.Value` of a bound
method: the resource's position in the `NewRouter` argument list and the
method's reflection index. -/
abbrev Handler := Nat × Nat

/-- Go map lookup on the association-list model of a `map[string]V`. -/
def mapLookup : List (String × α) → String → Option α
  | [], _ => none
  | p :: rest, k => if p.1 = k then some p.2 else mapLookup rest k

/-- Go map assignment `m[k] = v` on the association-list model: the old
binding for `k` (if any) is dropped and the new one appended. -/
def mapInsert : List (String × α) → String → α → List (String × α)
  | [], k, v => [(k, v)]
  | p :: rest, k, v =>
    if p.1 = k then mapInsert rest k v else p :: mapInsert rest k v

/-- The body of `NewRouter`'s method loop: computes the route key registered
for one valid method, given the (already gap- or id-extended) resource
snake name and whether the resource is an id-resource. -/
def methodRouteKey (isIdResource : Bool) (resNameSnake : String) (m : GoMethod) : String :=
  let methodName := convertName m.name
  let methodWords := splitChar '_' methodName
  let w0 := methodWords.headD ""
  let hasHttpMethod := w0 = "post" ∨ w0 = "get" ∨ w0 = "put" ∨ w0 = "delete"
  let minIdMethodLen := if hasHttpMethod then 3 else 2
  let isIdMethod :=
    isIdResource = false ∧ minIdMethodLen ≤ methodWords.length ∧
      methodWords.getLastD "" = "id"
  let methodName :=
    if isIdMethod then strTake methodName (strLen methodName - 3) else methodName
  let httpMethod := if hasHttpMethod then strToUpper w0 else "GET"
  let methodName :=
    if hasHttpMethod then
      if 1 < methodWords.length then "/" ++ strDrop methodName (strLen w0 + 1)
      else ""
    else "/" ++ methodName
  let methodName := if isIdMethod then methodName ++ "/:id" else methodName
  let methodName :=
    if resNameSnake = "" ∧ 0 < strLen methodName then strDrop methodName 1
    else methodName
  httpMethod ++ " /" ++ resNameSnake ++ methodName

/-- The per-resource prologue of `NewRouter`: id-resource detection (snake
name longer than 3 ending in `"_id"`), otherwise gap detection.  Returns
the extended snake name, the id-resource flag, and the gap-table entry to
register (keyed by the unextended snake name). -/
def resourcePrep (res : Resource) : String × Bool × Option (String × List String) :=
  let resNameSnake := convertName res.name
  let n := strLen resNameSnake
  if 3 < n ∧ strDrop resNameSnake (n - 3) = "_id" then
    (strTake resNameSnake (n - 3) ++ "/:id", true, none)
  else
    match res.gap with
    | some gap => (resNameSnake ++ "/" ++ gap, false, some (resNameSnake, splitChar '/' gap))
    | none => (resNameSnake, false, none)

/-- The method loop of `NewRouter` for one resource: methods failing
`validateMethod` are skipped (`continue`), the rest are inserted into the
method map keyed by their route key. -/
def insertMethods (mm : List (String × Handler)) (ri : Nat) (isIdResource : Bool)
    (resNameSnake : String) (mi : Nat) : List GoMethod → List (String × Handler)
  | [] => mm
  | m :: rest =>
    let mm' :=
      if validateMethod m then
        mapInsert mm (methodRouteKey isIdResource resNameSnake m) (ri, mi)
      else mm
    insertMethods mm' ri isIdResource resNameSnake (mi + 1) rest

/-- The router state built by `NewRouter`: the method map and the gaps map. -/
structure Router where
  methodMap : List (String × Handler)
  gapsMap : List (String × List String)
deriving DecidableEq

/-- One iteration of `NewRouter`'s resource loop. -/
def processResource (router : Router) (ri : Nat) (res : Resource) : Router :=
  let pr := resourcePrep res
  let gapsMap :=
    match pr.2.2 with
    | some e => mapInsert router.gapsMap e.1 e.2
    | none => router.gapsMap
  { methodMap := insertMethods router.methodMap ri pr.2.1 pr.1 0 res.methods
    gapsMap := gapsMap }

/-- The resource loop of `NewRouter`, with the running resource index. -/
def buildRouter (router : Router) (ri : Nat) : List Resource → Router
  | [] => router
  | res :: rest => buildRouter (processResource router ri res) (ri + 1) rest

/-- Models `NewRouter`: starts from empty maps and registers every resource
in order. -/
def NewRouter (resources : List Resource) : Router :=
  buildRouter ⟨[], []⟩ 0 resources

/-- The ordered list of `(key, handler)` registrations one resource's method
loop performs, without the overwriting map semantics (used to state the
duplicate-registration policy). -/
def methodRegs (ri : Nat) (isIdResource : Bool) (resNameSnake : String)
    (mi : Nat) : List GoMethod → List (String × Handler)
  | [] => []
  | m :: rest =>
    (if validateMethod m then
        [(methodRouteKey isIdResource resNameSnake m, (ri, mi))]
      else []) ++
      methodRegs ri isIdResource resNameSnake (mi + 1) rest

/-- The ordered list of registrations performed by the whole resource loop. -/
def routeRegsAux (ri : Nat) : List Resource → List (String × Handler)
  | [] => []
  | res :: rest =>
    (let pr := resourcePrep res
     methodRegs ri pr.2.1 pr.1 0 res.methods) ++ routeRegsAux (ri + 1) rest

/-- All `(key, handler)` registrations `NewRouter` performs, in order. -/
def routeRegs (resources : List Resource) : List (String × Handler) :=
  routeRegsAux 0 resources

/-- The handler of the LAST registration carrying key `k`, if any. -/
def lastLookup (l : List (String × α)) (k : String) : Option α :=
  l.foldl (fun acc p => if p.1 = k then some p.2 else acc) none

/-- The four values `resolvePath` returns: the route key, the parsed id
(`0` when none), the raw segment list, and the resolved gap list (Go `nil`
modelled as `[]`). -/
structure ResolveResult where
  path : String
  id : Int
  segments : List String
  gaps : List String
deriving DecidableEq

/-- The branch of `resolvePath` taken when `segments[1]` parses as an
integer: append `/:id`, then the method segment `segments[2]` when present
and non-empty. -/
def resolveIdBranch (path0 : String) (v : Int) (segments : List String) : ResolveResult :=
  let path := path0 ++ "/:id"
  let path :=
    if 2 < segments.length ∧ segments.getD 2 "" ≠ "" then
      path ++ "/" ++ segments.getD 2 ""
    else path
  ⟨path, v, segments, []⟩

/-- The branch of `resolvePath` taken when `segments[1]` does not parse:
consult the gaps map for `segments[0]`, append the gap segments when
registered, then the method segment, then `/:id` when the next segment
parses as an integer.  `v` is the value the first failed `ParseInt`
returned (Go keeps it in `id` unless the nested `ParseInt` reassigns it). -/
def resolveGapBranch (gm : List (String × List String)) (path0 : String) (v : Int)
    (segments : List String) : ResolveResult :=
  let gapsOpt := mapLookup gm (segments.headD "")
  let gaps := gapsOpt.getD []
  let path := if gapsOpt.isSome then path0 ++ "/" ++ joinSlash gaps else path0
  let methodIndex := gaps.length + 1
  let path :=
    if methodIndex < segments.length ∧ segments.getD methodIndex "" ≠ "" then
      path ++ "/" ++ segments.getD methodIndex ""
    else path
  let nextIndex := methodIndex + 1
  if nextIndex < segments.length ∧ segments.getD nextIndex "" ≠ "" then
    let pr := parseInt64 (segments.getD nextIndex "")
    let path := if pr.2 then path ++ "/:id" else path
    ⟨path, pr.1, segments, gaps⟩
  else
    ⟨path, v, segments, gaps⟩

/-- Models `(*Router).resolvePath`: split the raw path on `/`, normalize the
verb (note the misspelled `"DETETE"` literal, copied verbatim from the
source), and reconstruct the canonical route key. -/
def resolvePath (gm : List (String × List String)) (method : String)
    (rawPath : String) : ResolveResult :=
  let segments := splitChar '/' rawPath
  let httpMethod :=
    if method = "POST" ∨ method = "DETETE" ∨ method = "PUT" then method else "GET"
  let path := httpMethod ++ " /" ++ segments.headD ""
  let seg1 := segments.getD 1 ""
  let pr := parseInt64 seg1
  if pr.2 then resolveIdBranch path pr.1 segments
  else resolveGapBranch gm path pr.1 segments

/-- The package variable `InternalErrorStatusCode`, at its default. -/
def InternalErrorStatusCode : Int := 500

/-- The package variable `RequestErrorStatusCode`, at its default. -/
def RequestErrorStatusCode : Int := 400

/-- The request-context fields `doLog` reads. -/
structure Context where
  remoteAddr : String
  userId : Int
  method : String
  requestURI : String
  proto : String
  written : Nat
deriving DecidableEq

/-- One emitted log line, as the ordered fields `doLog` passes to
`logger.Printf` with the fixed format string. -/
structure LogRecord where
  remoteAddr : String
  userId : Int
  timestamp : String
  method : String
  requestURI : String
  proto : String
  written : Nat
  errStr : String
  stack : String
deriving DecidableEq

/-- Models `doLog`: sanitize the error string by replacing every newline
with `;` (Go `strings.Replace(errStr, "\n", ";", -1)`), then emit the
fields in the fixed order.  The wall-clock timestamp is passed in. -/
def doLog (ctx : Context) (now : String) (errStr : String) (stack : String) : LogRecord :=
  { remoteAddr := ctx.remoteAddr
    userId := ctx.userId
    timestamp := now
    method := ctx.method
    requestURI := ctx.requestURI
    proto := ctx.proto
    written := ctx.written
    errStr := String.mk (errStr.data.map fun c => if c = '\n' then ';' else c)
    stack := stack }

/-- Models the `RequestError` struct. -/
structure RequestError where
  Msg : String
  StatusCode : Int
deriving DecidableEq

/-- `RequestError.Error`. -/
def RequestError.Error (re : RequestError) : String := re.Msg

/-- `RequestError.Status`. -/
def RequestError.Status (re : RequestError) : Int := re.StatusCode

/-- `RequestError.Message`. -/
def RequestError.Message (re : RequestError) : String := re.Msg

/-- Models `RequestError.Log`: when the request-error logger is configured
(non-nil) it calls `doLog` with the literal stack string `"-"`; otherwise
nothing is emitted. -/
def RequestError.Log (loggerSet : Bool) (ctx : Context) (now : String)
    (re : RequestError) : Option LogRecord :=
  if loggerSet then some (doLog ctx now (RequestError.Error re) "-") else none

/-- Models `NewRequestError`. -/
def NewRequestError (message : String) : RequestError :=
  ⟨message, RequestErrorStatusCode⟩

/-- Models the `InternalError` struct; the wrapped `error` value is
represented by its `Error()` string, the only thing the code reads from
it. -/
structure InternalError where
  Err : String
  StatusCode : Int
deriving DecidableEq

/-- `InternalError.Status`. -/
def InternalError.Status (ie : InternalError) : Int := ie.StatusCode

/-- `InternalError.Error`. -/
def InternalError.Error (ie : InternalError) : String := ie.Err

/-- `InternalError.Message`: the fixed client-facing string. -/
def InternalError.Message (_ : InternalError) : String := "InternalError"

/-- A Go `interface{}` value handed to `NewInternalError`: either a value
already implementing `error` (represented by its `Error()` string) or any
other value (represented by its `fmt.Sprint` rendering). -/
inductive GoValue where
  | errVal (errorString : String)
  | plainVal (printed : String)
deriving DecidableEq

/-- Models `NewInternalError`: an `error` value is wrapped as-is, any other
value is stringified with `fmt.Sprint` and wrapped via `errors.New`; the
status is the package default. -/
def NewInternalError : GoValue → InternalError
  | .errVal s => ⟨s, InternalErrorStatusCode⟩
  | .plainVal s => ⟨s, InternalErrorStatusCode⟩

theorem leadsWith_append (pat b : List Char) : leadsWith pat (pat ++ b) = true := by
  induction pat with
  | nil => rfl
  | cons c cs ih => simp [leadsWith, ih]

theorem containsSeq_head {pat l : List Char} (h : leadsWith pat l = true) :
    containsSeq pat l = true := by
  cases l with
  | nil =>
    cases pat with
    | nil => rfl
    | cons c cs => simp [leadsWith] at h
  | cons c cs => simp [containsSeq, h]

theorem containsSeq_cons {pat : List Char} (c : Char) {cs : List Char}
    (h : containsSeq pat cs = true) : containsSeq pat (c :: cs) = true := by
  simp [containsSeq, h]

theorem containsSeq_append_left {pat l : List Char} (a : List Char)
    (h : containsSeq pat l = true) : containsSeq pat (a ++ l) = true := by
  induction a with
  | nil => simpa using h
  | cons c cs ih => exact containsSeq_cons c ih

theorem containsSeq_middle (pat a b : List Char) :
    containsSeq pat (a ++ (pat ++ b)) = true :=
  containsSeq_append_left a (containsSeq_head (leadsWith_append pat b))

theorem countChar_append (c : Char) (a b : String) :
    countChar c (a ++ b) = countChar c a + countChar c b := by
  simp [countChar, String.data_append, List.count_append]

theorem countChar_eq_zero {c : Char} {s : String} (h : c ∉ s.data) :
    countChar c s = 0 := by
  simp [countChar, List.count_eq_zero, h]

theorem mapLookup_insert {α : Type} (m : List (String × α)) (k : String) (v : α)
    (k' : String) :
    mapLookup (mapInsert m k v) k' = if k' = k then some v else mapLookup m k' := by
  induction m with
  | nil =>
    by_cases h : k' = k
    · simp [mapInsert, mapLookup, h]
    · simp [mapInsert, mapLookup, h]
      exact fun he => h (Eq.symm he)
  | cons p rest ih =>
    by_cases hp : p.1 = k
    · rw [mapInsert, if_pos hp, ih]
      by_cases h : k' = k
      · simp [h]
      · have hne : p.1 ≠ k' := by rw [hp]; exact fun he => h he.symm
        simp [h, mapLookup, hne]
    · rw [mapInsert, if_neg hp]
      by_cases hq : p.1 = k'
      · have hne : k' ≠ k := fun he => hp (hq.trans he)
        simp [mapLookup, hq, hne]
      · simp [mapLookup, hq, ih]

theorem mapLookup_mem {α : Type} {m : List (String × α)} {k : String} {v : α}
    (h : mapLookup m k = some v) : (k, v) ∈ m := by
  induction m with
  | nil => simp [mapLookup] at h
  | cons p rest ih =>
    obtain ⟨p1, p2⟩ := p
    simp only [mapLookup] at h
    by_cases hp : p1 = k
    · rw [if_pos hp] at h
      simp only [Option.some.injEq] at h
      rw [← hp, ← h]
      exact List.mem_cons_self _ _
    · rw [if_neg hp] at h
      exact List.mem_cons_of_mem _ (ih h)

theorem splitCharAux_chars (sep : Char) (l : List Char) :
    ∀ (cur piece : List Char), piece ∈ splitCharAux sep cur l →
      ∀ c, c ∈ piece → c ∈ cur ∨ c ∈ l := by
  induction l with
  | nil =>
    intro cur piece hp c hc
    simp [splitCharAux] at hp
    subst hp
    exact Or.inl (List.mem_reverse.mp hc)
  | cons c0 cs ih =>
    intro cur piece hp c hc
    by_cases h0 : c0 = sep
    · rw [splitCharAux, if_pos h0] at hp
      rcases List.mem_cons.mp hp with h | h
      · subst h
        exact Or.inl (List.mem_reverse.mp hc)
      · rcases ih [] piece h c hc with h' | h'
        · exact absurd h' (List.not_mem_nil c)
        · exact Or.inr (List.mem_cons_of_mem c0 h')
    · rw [splitCharAux, if_neg h0] at hp
      rcases ih (c0 :: cur) piece hp c hc with h' | h'
      · rcases List.mem_cons.mp h' with h'' | h''
        · exact Or.inr (h'' ▸ List.mem_cons_self c0 cs)
        · exact Or.inl h''
      · exact Or.inr (List.mem_cons_of_mem c0 h')

theorem splitChar_chars {sep : Char} {s : String} {piece : String}
    (hp : piece ∈ splitChar sep s) : ∀ c, c ∈ piece.data → c ∈ s.data := by
  intro c hc
  rcases List.mem_map.mp hp with ⟨l, hl, he⟩
  have : c ∈ l := by
    rw [← he] at hc
    exact hc
  rcases splitCharAux_chars sep s.data [] l hl c this with h | h
  · exact absurd h (List.not_mem_nil c)
  · exact h

theorem getD_mem_or_default (l : List String) (i : Nat) :
    l.getD i "" ∈ l ∨ l.getD i "" = "" := by
  induction l generalizing i with
  | nil => simp [List.getD]
  | cons x xs ih =>
    cases i with
    | zero => simp [List.getD]
    | succ j =>
      rcases ih j with h | h
      · exact Or.inl (List.mem_cons_of_mem x (by simpa [List.getD] using h))
      · simp [List.getD] at h ⊢
        simp [h]

theorem headD_mem_or_default (l : List String) :
    l.headD "" ∈ l ∨ l.headD "" = "" := by
  cases l with
  | nil => simp
  | cons x xs => simp

theorem insertMethods_eq (ri : Nat) (isId : Bool) (snake : String) :
    ∀ (ms : List GoMethod) (mm : List (String × Handler)) (mi : Nat),
      insertMethods mm ri isId snake mi ms =
        (methodRegs ri isId snake mi ms).foldl (fun acc p => mapInsert acc p.1 p.2) mm := by
  intro ms
  induction ms with
  | nil => intro mm mi; rfl
  | cons m rest ih =>
    intro mm mi
    rw [insertMethods, methodRegs]
    by_cases hv : validateMethod m = true
    · simp only [hv, if_true, List.singleton_append, List.foldl_cons]
      exact ih _ _
    · simp only [eq_false_of_ne_true hv, if_false, List.nil_append]
      exact ih _ _

theorem buildRouter_methodMap :
    ∀ (rs : List Resource) (router : Router) (ri : Nat),
      (buildRouter router ri rs).methodMap =
        (routeRegsAux ri rs).foldl (fun acc p => mapInsert acc p.1 p.2) router.methodMap := by
  intro rs
  induction rs with
  | nil => intro router ri; rfl
  | cons res rest ih =>
    intro router ri
    rw [buildRouter, routeRegsAux, List.foldl_append, ih]
    rw [processResource]
    simp only
    rw [insertMethods_eq]

theorem lastLookup_foldl {α : Type} (k : String) :
    ∀ (l : List (String × α)) (a : Option α),
      l.foldl (fun acc p => if p.1 = k then some p.2 else acc) a =
        Option.or (lastLookup l k) a := by
  intro l
  induction l with
  | nil => intro a; simp [lastLookup]
  | cons p rest ih =>
    intro a
    rw [List.foldl_cons]
    rw [ih]
    have hr : lastLookup (p :: rest) k =
        Option.or (lastLookup rest k) (if p.1 = k then some p.2 else none) := by
      rw [lastLookup, List.foldl_cons]
      exact ih _
    rw [hr, Option.or_assoc]
    by_cases hp : p.1 = k <;> simp [hp]

theorem mapLookup_foldl_insert {α : Type} (k : String) :
    ∀ (l : List (String × α)) (init : List (String × α)),
      mapLookup (l.foldl (fun acc p => mapInsert acc p.1 p.2) init) k =
        Option.or (lastLookup l k) (mapLookup init k) := by
  intro l
  induction l with
  | nil => intro init; simp [lastLookup]
  | cons p rest ih =>
    intro init
    rw [List.foldl_cons, ih]
    have hr : lastLookup (p :: rest) k =
        Option.or (lastLookup rest k) (if p.1 = k then some p.2 else none) := by
      rw [lastLookup, List.foldl_cons]
      exact lastLookup_foldl k rest _
    rw [hr, Option.or_assoc, mapLookup_insert]
    by_cases hp : p.1 = k
    · rw [if_pos hp.symm, if_pos hp]
      rfl
    · rw [if_neg (fun he => hp (Eq.symm he)), if_neg hp, Option.none_or]

theorem strAppend_ne_of_take_ne {p target : String}
    (h : p.data ≠ target.data.take p.data.length) (t : String) : p ++ t ≠ target := by
  intro he
  apply h
  have hd : p.data ++ t.data = target.data := by
    rw [← String.data_append, he]
  rw [← hd, List.take_left]

theorem resolveIdBranch_path (p0 : String) (v : Int) (segs : List String) :
    ∃ t, (resolveIdBranch p0 v segs).path = p0 ++ t := by
  rw [resolveIdBranch]
  simp only
  by_cases h : 2 < segs.length ∧ segs.getD 2 "" ≠ ""
  · exact ⟨"/:id" ++ ("/" ++ segs.getD 2 ""), by
      rw [if_pos h, String.append_assoc, String.append_assoc]⟩
  · exact ⟨"/:id", by rw [if_neg h]⟩

theorem resolveGapBranch_path (gm : List (String × List String)) (p0 : String)
    (v : Int) (segs : List String) :
    ∃ t, (resolveGapBranch gm p0 v segs).path = p0 ++ t := by
  rw [resolveGapBranch]
  simp only
  set gaps := (mapLookup gm (segs.headD "")).getD [] with hg
  set path1 := if (mapLookup gm (segs.headD "")).isSome then
      p0 ++ "/" ++ joinSlash gaps else p0 with hp1
  have h1 : ∃ t1, path1 = p0 ++ t1 := by
    rw [hp1]
    by_cases h : (mapLookup gm (segs.headD "")).isSome
    · exact ⟨"/" ++ joinSlash gaps, by rw [if_pos h, String.append_assoc]⟩
    · exact ⟨"", by rw [if_neg h, String.append_empty]⟩
  obtain ⟨t1, h1⟩ := h1
  set path2 := if gaps.length + 1 < segs.length ∧ segs.getD (gaps.length + 1) "" ≠ "" then
      path1 ++ "/" ++ segs.getD (gaps.length + 1) "" else path1 with hp2
  have h2 : ∃ t2, path2 = p0 ++ t2 := by
    rw [hp2]
    by_cases h : gaps.length + 1 < segs.length ∧ segs.getD (gaps.length + 1) "" ≠ ""
    · exact ⟨t1 ++ ("/" ++ segs.getD (gaps.length + 1) ""), by
        rw [if_pos h, h1, String.append_assoc, String.append_assoc]⟩
    · exact ⟨t1, by rw [if_neg h]; exact h1⟩
  obtain ⟨t2, h2⟩ := h2
  by_cases h : gaps.length + 1 + 1 < segs.length ∧ segs.getD (gaps.length + 1 + 1) "" ≠ ""
  · rw [if_pos h]
    by_cases hok : (parseInt64 (segs.getD (gaps.length + 1 + 1) "")).2 = true
    · exact ⟨t2 ++ "/:id", by rw [if_pos hok, h2, String.append_assoc]⟩
    · exact ⟨t2, by rw [if_neg hok]; exact h2⟩
  · rw [if_neg h]
    exact ⟨t2, h2⟩

theorem resolvePath_shape (gm : List (String × List String)) (m rawPath : String) :
    ∃ t, (resolvePath gm m rawPath).path =
      (if m = "POST" ∨ m = "DETETE" ∨ m = "PUT" then m else "GET") ++ (" /" ++ t) := by
  rw [resolvePath]
  set hm := if m = "POST" ∨ m = "DETETE" ∨ m = "PUT" then m else "GET" with hhm
  set segs := splitChar '/' rawPath with hsegs
  set p0 := hm ++ " /" ++ (segs.headD "") with hp0
  by_cases hok : (parseInt64 (segs.getD 1 "")).2 = true
  · rw [if_pos hok]
    obtain ⟨t, ht⟩ := resolveIdBranch_path p0 (parseInt64 (segs.getD 1 "")).1 segs
    exact ⟨segs.headD "" ++ t, by
      rw [ht, hp0, String.append_assoc, String.append_assoc]⟩
  · rw [if_neg hok]
    obtain ⟨t, ht⟩ := resolveGapBranch_path gm p0 (parseInt64 (segs.getD 1 "")).1 segs
    exact ⟨segs.headD "" ++ t, by
      rw [ht, hp0, String.append_assoc, String.append_assoc]⟩

theorem boolFalse {b : Bool} (h : ¬ b = true) : b = false := by
  cases b
  · rfl
  · exact absurd rfl h

theorem parseInt64_not_ok {s : String} (h : (parseInt64 s).2 = false) :
    (parseInt64 s).1 = 0 ∨ (parseInt64 s).1 = 2 ^ 63 - 1 ∨
      (parseInt64 s).1 = -(2 ^ 63) := by
  obtain ⟨l⟩ := s
  cases l with
  | nil => left; rfl
  | cons c0 rest =>
    simp only [parseInt64] at h ⊢
    split_ifs at h ⊢ <;> simp_all

theorem hasIdSeg_append_id (s : String) : hasIdSeg (s ++ "/:id") = true := by
  unfold hasIdSeg
  rw [String.data_append]
  have h2 : s.data ++ "/:id".data = s.data ++ ("/:id".data ++ []) := by
    rw [List.append_nil]
  rw [h2]
  exact containsSeq_middle _ _ _

theorem resolveIdBranch_hasId (p0 : String) (v : Int) (segs : List String) :
    hasIdSeg (resolveIdBranch p0 v segs).path = true := by
  rw [resolveIdBranch]
  simp only
  by_cases h : 2 < segs.length ∧ segs.getD 2 "" ≠ ""
  · rw [if_pos h]
    unfold hasIdSeg
    rw [String.data_append, String.data_append, String.data_append,
      List.append_assoc, List.append_assoc]
    exact containsSeq_middle _ _ _
  · rw [if_neg h]
    exact hasIdSeg_append_id p0

theorem resolveGapBranch_inv (gm : List (String × List String)) (p0 : String)
    (v : Int) (segs : List String)
    (hv : v = 0 ∨ v = 2 ^ 63 - 1 ∨ v = -(2 ^ 63)) :
    hasIdSeg (resolveGapBranch gm p0 v segs).path = true ∨
      (resolveGapBranch gm p0 v segs).id = 0 ∨
      (resolveGapBranch gm p0 v segs).id = 2 ^ 63 - 1 ∨
      (resolveGapBranch gm p0 v segs).id = -(2 ^ 63) := by
  rw [resolveGapBranch]
  simp only
  set gaps := (mapLookup gm (segs.headD "")).getD [] with hg
  by_cases h : gaps.length + 1 + 1 < segs.length ∧ segs.getD (gaps.length + 1 + 1) "" ≠ ""
  · rw [if_pos h]
    by_cases hok : (parseInt64 (segs.getD (gaps.length + 1 + 1) "")).2 = true
    · rw [if_pos hok]
      exact Or.inl (hasIdSeg_append_id _)
    · rw [if_neg hok]
      exact Or.inr (parseInt64_not_ok (boolFalse hok))
  · rw [if_neg h]
    exact Or.inr hv

theorem resolvePath_id_inv (gm : List (String × List String)) (m rawPath : String) :
    (resolvePath gm m rawPath).id ≠ 0 →
      hasIdSeg (resolvePath gm m rawPath).path = true ∨
        (resolvePath gm m rawPath).id = 2 ^ 63 - 1 ∨
        (resolvePath gm m rawPath).id = -(2 ^ 63) := by
  rw [resolvePath]
  by_cases hok : (parseInt64 ((splitChar '/' rawPath).getD 1 "")).2 = true
  · rw [if_pos hok]
    intro _
    exact Or.inl (resolveIdBranch_hasId _ _ _)
  · rw [if_neg hok]
    intro hne
    have hv := parseInt64_not_ok (boolFalse hok)
    rcases resolveGapBranch_inv gm _ _ _ hv with h | h | h | h
    · exact Or.inl h
    · exact absurd h hne
    · exact Or.inr (Or.inl h)
    · exact Or.inr (Or.inr h)

theorem countChar_joinSlash {gl : List String} (h : ∀ g ∈ gl, countChar ':' g = 0) :
    countChar ':' (joinSlash gl) = 0 := by
  induction gl with
  | nil => rfl
  | cons g rest ih =>
    cases rest with
    | nil => exact h g (List.mem_cons_self _ _)
    | cons g2 r2 =>
      have hj : joinSlash (g :: g2 :: r2) = g ++ "/" ++ joinSlash (g2 :: r2) := rfl
      rw [hj, countChar_append, countChar_append,
        h g (List.mem_cons_self _ _), ih (fun x hx => h x (List.mem_cons_of_mem _ hx))]
      decide

theorem resolveIdBranch_count (p0 : String) (v : Int) (segs : List String)
    (h0 : countChar ':' p0 = 0) (hs : ∀ s ∈ segs, countChar ':' s = 0) :
    countChar ':' (resolveIdBranch p0 v segs).path ≤ 1 := by
  rw [resolveIdBranch]
  simp only
  by_cases h : 2 < segs.length ∧ segs.getD 2 "" ≠ ""
  · rw [if_pos h]
    have h2 : countChar ':' (segs.getD 2 "") = 0 := by
      rcases getD_mem_or_default segs 2 with hm | hm
      · exact hs _ hm
      · rw [hm]; rfl
    rw [countChar_append, countChar_append, countChar_append, h0, h2]
    decide
  · rw [if_neg h]
    rw [countChar_append, h0]
    decide

theorem resolveGapBranch_count (gm : List (String × List String)) (p0 : String)
    (v : Int) (segs : List String)
    (h0 : countChar ':' p0 = 0) (hs : ∀ s ∈ segs, countChar ':' s = 0)
    (hg : ∀ e ∈ gm, ∀ g ∈ e.2, countChar ':' g = 0) :
    countChar ':' (resolveGapBranch gm p0 v segs).path ≤ 1 := by
  rw [resolveGapBranch]
  simp only
  have hgaps : ∀ g ∈ (mapLookup gm (segs.headD "")).getD [], countChar ':' g = 0 := by
    cases hml : mapLookup gm (segs.headD "") with
    | none => simp
    | some gl =>
      intro g hgl
      exact hg _ (mapLookup_mem hml) g (by simpa using hgl)
  set gaps := (mapLookup gm (segs.headD "")).getD [] with hgdef
  have h1 : countChar ':' (if (mapLookup gm (segs.headD "")).isSome then
      p0 ++ "/" ++ joinSlash gaps else p0) = 0 := by
    by_cases h : (mapLookup gm (segs.headD "")).isSome
    · rw [if_pos h, countChar_append, countChar_append, h0, countChar_joinSlash hgaps]
      decide
    · rw [if_neg h]; exact h0
  set path1 := if (mapLookup gm (segs.headD "")).isSome then
      p0 ++ "/" ++ joinSlash gaps else p0 with hp1
  have h2 : countChar ':' (if gaps.length + 1 < segs.length ∧
      segs.getD (gaps.length + 1) "" ≠ "" then
        path1 ++ "/" ++ segs.getD (gaps.length + 1) "" else path1) = 0 := by
    by_cases h : gaps.length + 1 < segs.length ∧ segs.getD (gaps.length + 1) "" ≠ ""
    · have hm2 : countChar ':' (segs.getD (gaps.length + 1) "") = 0 := by
        rcases getD_mem_or_default segs (gaps.length + 1) with hm | hm
        · exact hs _ hm
        · rw [hm]; rfl
      rw [if_pos h, countChar_append, countChar_append, h1, hm2]
      decide
    · rw [if_neg h]; exact h1
  set path2 := if gaps.length + 1 < segs.length ∧
      segs.getD (gaps.length + 1) "" ≠ "" then
        path1 ++ "/" ++ segs.getD (gaps.length + 1) "" else path1 with hp2
  by_cases h : gaps.length + 1 + 1 < segs.length ∧ segs.getD (gaps.length + 1 + 1) "" ≠ ""
  · rw [if_pos h]
    by_cases hok : (parseInt64 (segs.getD (gaps.length + 1 + 1) "")).2 = true
    · rw [if_pos hok]
      show countChar ':' (path2 ++ "/:id") ≤ 1
      rw [countChar_append, h2]
      decide
    · rw [if_neg hok]
      show countChar ':' path2 ≤ 1
      rw [h2]
      decide
  · rw [if_neg h]
    show countChar ':' path2 ≤ 1
    rw [h2]
    decide

theorem resolvePath_count (gm : List (String × List String)) (m rawPath : String)
    (hraw : countChar ':' rawPath = 0)
    (hg : ∀ e ∈ gm, ∀ g ∈ e.2, countChar ':' g = 0) :
    countChar ':' (resolvePath gm m rawPath).path ≤ 1 := by
  have hsegs : ∀ s ∈ splitChar '/' rawPath, countChar ':' s = 0 := by
    intro s hsm
    apply countChar_eq_zero
    intro hc
    exact absurd (splitChar_chars hsm ':' hc) (List.count_eq_zero.mp hraw)
  have hverb : countChar ':'
      (if m = "POST" ∨ m = "DETETE" ∨ m = "PUT" then m else "GET") = 0 := by
    by_cases h : m = "POST" ∨ m = "DETETE" ∨ m = "PUT"
    · rw [if_pos h]
      rcases h with h | h | h <;> rw [h] <;> decide
    · rw [if_neg h]; decide
  have hh : countChar ':' ((splitChar '/' rawPath).headD "") = 0 := by
    rcases headD_mem_or_default (splitChar '/' rawPath) with hm | hm
    · exact hsegs _ hm
    · rw [hm]; rfl
  have hp0 : countChar ':'
      ((if m = "POST" ∨ m = "DETETE" ∨ m = "PUT" then m else "GET") ++ " /" ++
        ((splitChar '/' rawPath).headD "")) = 0 := by
    rw [countChar_append, countChar_append, hverb, hh]
    decide
  rw [resolvePath]
  by_cases hok : (parseInt64 ((splitChar '/' rawPath).getD 1 "")).2 = true
  · rw [if_pos hok]
    exact resolveIdBranch_count _ _ _ hp0 hsegs
  · rw [if_neg hok]
    exact resolveGapBranch_count _ _ _ _ hp0 hsegs hg

theorem convertNameAux_spec (l : List Char) :
    ∀ first : Bool, (convertNameAux first l).map toLowerChar = convertNameSpecAux first l := by
  induction l with
  | nil => intro first; rfl
  | cons c cs ih =>
    intro first
    by_cases h : first = false ∧ 'A' ≤ c ∧ c ≤ 'Z'
    · rw [convertNameAux, convertNameSpecAux, if_pos h, if_pos h,
        List.map_append, List.map_cons, ih]
      have hsep : WordSeparator.data.map toLowerChar = ['_'] := by decide
      rw [hsep]
    · rw [convertNameAux, convertNameSpecAux, if_neg h, if_neg h,
        List.map_append, List.map_cons, ih]
      rfl

theorem convertName_eq_spec (s : String) : convertName s = convertNameSpec s := by
  show String.mk ((convertNameAux true s.data).map toLowerChar) =
    String.mk (convertNameSpecAux true s.data)
  rw [convertNameAux_spec]

theorem convertNameAux_append (l₁ : List Char) :
    ∀ (first : Bool) (l₂ : List Char), l₁ ≠ [] →
      convertNameAux first (l₁ ++ l₂) =
        convertNameAux first l₁ ++ convertNameAux false l₂ := by
  induction l₁ with
  | nil => intro first l₂ h; exact absurd rfl h
  | cons c cs ih =>
    intro first l₂ _
    cases cs with
    | nil =>
      have h1 : convertNameAux first ([c] ++ l₂) =
          (if first = false ∧ 'A' ≤ c ∧ c ≤ 'Z' then WordSeparator.data else []) ++
            c :: convertNameAux false l₂ := rfl
      have h2 : convertNameAux first [c] =
          (if first = false ∧ 'A' ≤ c ∧ c ≤ 'Z' then WordSeparator.data else []) ++
            [c] := rfl
      rw [h1, h2, List.append_assoc, List.cons_append, List.nil_append]
    | cons d ds =>
      have h1 : convertNameAux first ((c :: d :: ds) ++ l₂) =
          (if first = false ∧ 'A' ≤ c ∧ c ≤ 'Z' then WordSeparator.data else []) ++
            c :: convertNameAux false ((d :: ds) ++ l₂) := rfl
      have h2 : convertNameAux first (c :: d :: ds) =
          (if first = false ∧ 'A' ≤ c ∧ c ≤ 'Z' then WordSeparator.data else []) ++
            c :: convertNameAux false (d :: ds) := rfl
      rw [h1, h2, ih false l₂ (by simp), List.append_assoc, List.cons_append]

theorem convertName_append_Id (α : String) (hne : α.data ≠ []) :
    convertName (α ++ "Id") = convertName α ++ "_id" := by
  have hd : (α ++ "Id").data = α.data ++ ['I', 'd'] := by
    rw [String.data_append]
  have ha := convertNameAux_append α.data true ['I', 'd'] hne
  have haux : convertNameAux false ['I', 'd'] = ['_', 'I', 'd'] := by decide
  have hmapl : (['_', 'I', 'd'].map toLowerChar) = ['_', 'i', 'd'] := by decide
  apply String.ext
  show (convertNameAux true (α ++ "Id").data).map toLowerChar =
    ((convertNameAux true α.data).map toLowerChar) ++ ['_', 'i', 'd']
  rw [hd, ha, haux, List.map_append, hmapl]

theorem convertName_ne_nil {α : String} (hne : α.data ≠ []) :
    (convertName α).data ≠ [] := by
  obtain ⟨l⟩ := α
  cases l with
  | nil => exact absurd rfl hne
  | cons c cs =>
    show ((convertNameAux true (c :: cs)).map toLowerChar) ≠ []
    rw [convertNameAux, if_neg (by simp)]
    simp

theorem NewRouter_single (res : Resource) :
    (NewRouter [res]).methodMap =
      insertMethods [] 0 (resourcePrep res).2.1 (resourcePrep res).1 0 res.methods := rfl

theorem resourcePrep_id (α : String) (g : Option String) (ms : List GoMethod)
    (hne : α.data ≠ []) :
    resourcePrep ⟨α ++ "Id", g, ms⟩ = (convertName α ++ "/:id", true, none) := by
  have hsnake : convertName ((⟨α ++ "Id", g, ms⟩ : Resource).name) =
      convertName α ++ "_id" := convertName_append_Id α hne
  simp only [resourcePrep, hsnake]
  have hlen : strLen (convertName α ++ "_id") = (convertName α).data.length + 3 := by
    rw [strLen, String.data_append]
    simp
  rw [hlen, Nat.add_sub_cancel]
  have h3 : 3 < (convertName α).data.length + 3 := by
    have hpos : 0 < (convertName α).data.length :=
      List.length_pos.mpr (convertName_ne_nil hne)
    omega
  have hdrop : strDrop (convertName α ++ "_id") ((convertName α).data.length) = "_id" := by
    rw [strDrop, String.data_append, List.drop_left]
  have htake : strTake (convertName α ++ "_id") ((convertName α).data.length) =
      convertName α := by
    rw [strTake, String.data_append, List.take_left]
  rw [if_pos ⟨h3, hdrop⟩, htake]

theorem methodRouteKey_id_res (S : String) (m : GoMethod)
    (hw : ((splitChar '_' (convertName m.name)).headD "") ≠ "post" ∧
      ((splitChar '_' (convertName m.name)).headD "") ≠ "get" ∧
      ((splitChar '_' (convertName m.name)).headD "") ≠ "put" ∧
      ((splitChar '_' (convertName m.name)).headD "") ≠ "delete") :
    methodRouteKey true (S ++ "/:id") m =
      "GET" ++ " /" ++ (S ++ "/:id") ++ ("/" ++ convertName m.name) := by
  have hhttp : ¬(((splitChar '_' (convertName m.name)).headD "") = "post" ∨
      ((splitChar '_' (convertName m.name)).headD "") = "get" ∨
      ((splitChar '_' (convertName m.name)).headD "") = "put" ∨
      ((splitChar '_' (convertName m.name)).headD "") = "delete") := by
    rintro (h | h | h | h)
    exacts [hw.1 h, hw.2.1 h, hw.2.2.1 h, hw.2.2.2 h]
  have hbf : (true = false) = False := by simp
  have hempty : ¬((S ++ "/:id") = "" ∧ 0 < strLen ("/" ++ convertName m.name)) := by
    rintro ⟨h1, _⟩
    have hdd := congrArg String.data h1
    rw [String.data_append] at hdd
    simp at hdd
  simp only [methodRouteKey, hbf, false_and, if_false, if_neg hhttp, if_neg hempty]

theorem methodRouteKey_verb (isId : Bool) (snake : String) (m : GoMethod)
    (hsnake : snake ≠ "")
    (hverb : ((splitChar '_' (convertName m.name)).headD "") = "post" ∨
      ((splitChar '_' (convertName m.name)).headD "") = "get" ∨
      ((splitChar '_' (convertName m.name)).headD "") = "put" ∨
      ((splitChar '_' (convertName m.name)).headD "") = "delete")
    (hnotid : (splitChar '_' (convertName m.name)).getLastD "" ≠ "id") :
    methodRouteKey isId snake m =
      strToUpper ((splitChar '_' (convertName m.name)).headD "") ++ " /" ++ snake ++
        (if 1 < (splitChar '_' (convertName m.name)).length then
          "/" ++ strDrop (convertName m.name)
            (strLen ((splitChar '_' (convertName m.name)).headD "") + 1)
        else "") := by
  have hid : ¬(isId = false ∧ 3 ≤ (splitChar '_' (convertName m.name)).length ∧
      (splitChar '_' (convertName m.name)).getLastD "" = "id") :=
    fun h => hnotid h.2.2
  simp only [methodRouteKey, if_pos hverb, if_neg hid]
  by_cases hlen : 1 < (splitChar '_' (convertName m.name)).length
  · rw [if_pos hlen, if_neg (not_and_of_not_left _ hsnake)]
  · rw [if_neg hlen, if_neg (not_and_of_not_left _ hsnake)]

theorem methodRouteKey_noverb (isId : Bool) (snake : String) (m : GoMethod)
    (hsnake : snake ≠ "")
    (hnv : ¬(((splitChar '_' (convertName m.name)).headD "") = "post" ∨
      ((splitChar '_' (convertName m.name)).headD "") = "get" ∨
      ((splitChar '_' (convertName m.name)).headD "") = "put" ∨
      ((splitChar '_' (convertName m.name)).headD "") = "delete"))
    (hnotid : (splitChar '_' (convertName m.name)).getLastD "" ≠ "id") :
    methodRouteKey isId snake m =
      "GET" ++ " /" ++ snake ++ ("/" ++ convertName m.name) := by
  have hid : ¬(isId = false ∧ 2 ≤ (splitChar '_' (convertName m.name)).length ∧
      (splitChar '_' (convertName m.name)).getLastD "" = "id") :=
    fun h => hnotid h.2.2
  simp only [methodRouteKey, if_neg hnv, if_neg hid]
  rw [if_neg (not_and_of_not_left _ hsnake)]

theorem keyform (S mn : String) :
    "GET" ++ " /" ++ (S ++ "/:id") ++ ("/" ++ mn) = "GET /" ++ S ++ "/:id/" ++ mn := by
  have e1 : ("GET" : String).data = ['G', 'E', 'T'] := rfl
  have e2 : (" /" : String).data = [' ', '/'] := rfl
  have e3 : ("/:id" : String).data = ['/', ':', 'i', 'd'] := rfl
  have e4 : ("/" : String).data = ['/'] := rfl
  have e5 : ("GET /" : String).data = ['G', 'E', 'T', ' ', '/'] := rfl
  have e6 : ("/:id/" : String).data = ['/', ':', 'i', 'd', '/'] := rfl
  apply String.ext
  simp [String.data_append, e1, e2, e3, e4, e5, e6, List.append_assoc]

/-- C1: the round-trip property fails on the code: `NewRouter` registers the
key `DELETE /baz/bar` for a resource `Baz` with method `DeleteBar`, yet no
request at all (any gaps map, any HTTP method string, any raw path) makes
`resolvePath` produce a key with verb `DELETE`, because the resolver's
switch compares against the misspelled literal `"DETETE"`.  The code
contradicts its own doc comment ("HTTP POST, PUT, DELETE will be routed
..."), so this is a code bug, not a spec error. -/
theorem C1_delete_key_unreachable :
    mapLookup (NewRouter [⟨"Baz", none, [⟨"DeleteBar", 2, 0, true⟩]⟩]).methodMap
        "DELETE /baz/bar" = some (0, 0) ∧
    ∀ (gm : List (String × List String)) (method rawPath : String),
      (resolvePath gm method rawPath).path ≠ "DELETE /baz/bar" := by
  constructor
  · decide
  · intro gm method rawPath
    obtain ⟨t, ht⟩ := resolvePath_shape gm method rawPath
    rw [ht]
    by_cases h : method = "POST" ∨ method = "DETETE" ∨ method = "PUT"
    · rw [if_pos h]
      rcases h with h | h | h <;> rw [h]
      · exact strAppend_ne_of_take_ne (by decide) _
      · exact strAppend_ne_of_take_ne (by decide) _
      · exact strAppend_ne_of_take_ne (by decide) _
    · rw [if_neg h]
      exact strAppend_ne_of_take_ne (by decide) _

/-- C2: the resolver's verb normalization.  The claim (and the code's own
doc comment) say POST/PUT/DELETE pass through, everything else becomes GET;
but the switch's literal is misspelled `"DETETE"`, so method `DELETE` is
normalized to GET while the nonsense method `DETETE` passes through.
Evaluated here at concrete requests. -/
theorem C2_resolver_delete_typo :
    resolvePath [] "DELETE" "users/image_url" =
      ⟨"GET /users/image_url", 0, ["users", "image_url"], []⟩ ∧
    resolvePath [] "DETETE" "users/image_url" =
      ⟨"DETETE /users/image_url", 0, ["users", "image_url"], []⟩ ∧
    resolvePath [] "POST" "users/image_url" =
      ⟨"POST /users/image_url", 0, ["users", "image_url"], []⟩ ∧
    resolvePath [] "PUT" "users/image_url" =
      ⟨"PUT /users/image_url", 0, ["users", "image_url"], []⟩ ∧
    resolvePath [] "HEAD" "users/image_url" =
      ⟨"GET /users/image_url", 0, ["users", "image_url"], []⟩ := by
  exact ⟨by decide, by decide, by decide, by decide, by decide⟩

/-- C3 counterexample: with the literal method name `Get_Name` (as the claim
words it), `convertName` yields `get__name` (the underscore is kept and a
separator is added before `N`), so the verb-stripping leaves `_name` and
the registered key is `GET /users/profile/_name`; the claimed key
`GET /users/profile/name` is not in the table. -/
theorem C3_counterexample_literal_underscore :
    mapLookup (NewRouter [⟨"Users", some "profile", [⟨"Get_Name", 2, 0, true⟩]⟩]).methodMap
        "GET /users/profile/name" = none ∧
    mapLookup (NewRouter [⟨"Users", some "profile", [⟨"Get_Name", 2, 0, true⟩]⟩]).methodMap
        "GET /users/profile/_name" = some (0, 0) := by
  exact ⟨by decide, by decide⟩

/-- C3 (amended): resource `Users` with gap `"profile"` and method `Name`
(GET implicit, which is what the scenario's `Get_Name` route notation
denotes) registers `GET /users/profile/name`, and `resolvePath` on GET
`users/profile/name` with the router's gaps map returns that key with
id 0. -/
theorem C3_gap_scenario :
    mapLookup (NewRouter [⟨"Users", some "profile", [⟨"Name", 2, 0, true⟩]⟩]).methodMap
        "GET /users/profile/name" = some (0, 0) ∧
    (resolvePath (NewRouter [⟨"Users", some "profile", [⟨"Name", 2, 0, true⟩]⟩]).gapsMap
        "GET" "users/profile/name").path = "GET /users/profile/name" ∧
    (resolvePath (NewRouter [⟨"Users", some "profile", [⟨"Name", 2, 0, true⟩]⟩]).gapsMap
        "GET" "users/profile/name").id = 0 := by
  exact ⟨by decide, by decide, by decide⟩

/-- C4 counterexample: a logged `RequestError`'s log line carries the
literal stack string `"-"`, not the empty string: `RequestError.Log` passes
`"-"` to `doLog`. -/
theorem C4_counterexample_stack_dash :
    (RequestError.Log true ⟨"1.2.3.4", 7, "GET", "/users/name", "HTTP/1.1", 12⟩
        "02/Jan/2006:15:04:05 -0700" ⟨"bad request", 400⟩).map LogRecord.stack
      = some "-" ∧ ("-" : String) ≠ "" := by
  exact ⟨rfl, by decide⟩

/-- C4 (amended): for every `RequestError` that is logged with a configured
request-error logger, the stack-string field of the emitted log line is the
literal `"-"` (not the empty string). -/
theorem C4_request_error_stack_literal :
    ∀ (ctx : Context) (now : String) (re : RequestError),
      (RequestError.Log true ctx now re).map LogRecord.stack = some "-" := by
  intro ctx now re
  rfl

/-- C5: the id-resource convention.  For every resource whose type name is
`α ++ "Id"` with `α` nonempty, carrying any gap capability (ignored for
id-resources) and one valid method whose converted first word is not an
HTTP verb, the registered key is `GET /<snake α>/:id/<snake method>`.
Concretely, `UsersId` with `ImageUrl` registers
`GET /users/:id/image_url`, and resolving GET `users/5/image_url` returns
that key with id 5. -/
theorem C5_id_resource_convention :
    (∀ (α mName : String) (g : Option String),
      α.data ≠ [] →
      validateMethod ⟨mName, 2, 0, true⟩ = true →
      ((splitChar '_' (convertName mName)).headD "") ≠ "post" →
      ((splitChar '_' (convertName mName)).headD "") ≠ "get" →
      ((splitChar '_' (convertName mName)).headD "") ≠ "put" →
      ((splitChar '_' (convertName mName)).headD "") ≠ "delete" →
      mapLookup (NewRouter [⟨α ++ "Id", g, [⟨mName, 2, 0, true⟩]⟩]).methodMap
          ("GET /" ++ convertName α ++ "/:id/" ++ convertName mName) = some (0, 0)) ∧
    mapLookup (NewRouter [⟨"UsersId", none, [⟨"ImageUrl", 2, 0, true⟩]⟩]).methodMap
        "GET /users/:id/image_url" = some (0, 0) ∧
    resolvePath (NewRouter [⟨"UsersId", none, [⟨"ImageUrl", 2, 0, true⟩]⟩]).gapsMap
        "GET" "users/5/image_url" =
      ⟨"GET /users/:id/image_url", 5, ["users", "5", "image_url"], []⟩ := by
  refine ⟨?_, by decide, by decide⟩
  intro α mName g hne hv h1 h2 h3 h4
  have hpr := resourcePrep_id α g [⟨mName, 2, 0, true⟩] hne
  have hkey := methodRouteKey_id_res (convertName α) ⟨mName, 2, 0, true⟩ ⟨h1, h2, h3, h4⟩
  have hmap : (NewRouter [⟨α ++ "Id", g, [⟨mName, 2, 0, true⟩]⟩]).methodMap =
      [(methodRouteKey true (convertName α ++ "/:id") ⟨mName, 2, 0, true⟩, (0, 0))] := by
    rw [NewRouter_single, hpr]
    show insertMethods [] 0 true (convertName α ++ "/:id") 0 [⟨mName, 2, 0, true⟩] = _
    rw [insertMethods, if_pos hv]
    rfl
  have hcond : methodRouteKey true (convertName α ++ "/:id") ⟨mName, 2, 0, true⟩ =
      "GET /" ++ convertName α ++ "/:id/" ++ convertName mName := by
    rw [hkey]
    exact keyform (convertName α) (convertName mName)
  rw [hmap]
  simp only [mapLookup]
  rw [if_pos hcond]

/-- Witness for C5 at `α = "Users"`, method `ImageUrl`. -/
theorem C5_id_resource_convention_witness :
    ("Users" : String).data ≠ [] ∧
    mapLookup (NewRouter [⟨"Users" ++ "Id", none, [⟨"ImageUrl", 2, 0, true⟩]⟩]).methodMap
        ("GET /" ++ convertName "Users" ++ "/:id/" ++ convertName "ImageUrl")
      = some (0, 0) :=
  ⟨by decide, C5_id_resource_convention.1 "Users" "ImageUrl" none (by decide) (by decide)
    (by decide) (by decide) (by decide) (by decide)⟩

/-- C6: `convertName` agrees (on all inputs) with the spec's NameConverter
contract — lowercase with a separator inserted before every uppercase
letter except at the first character and no acronym special-casing — and in
particular `UsersID` converts to `users_i_d`, not `users_id`. -/
theorem C6_convert_name :
    (∀ s : String, convertName s = convertNameSpec s) ∧
    convertName "UsersID" = "users_i_d" ∧
    convertName "UsersID" ≠ "users_id" :=
  ⟨convertName_eq_spec, by decide, by decide⟩

/-- C7: builder verb detection.  For every method (on any resource snake
name and id-flag) whose name does not end in the word `id`: when the first
word of the converted name is post/get/put/delete it becomes the uppercased
verb and is dropped from the path portion (which is empty when it was the
only word); otherwise the verb is GET and the whole converted name is the
path portion.  Concretely `PostBar` on `Baz` registers `POST /baz/bar`. -/
theorem C7_builder_verb_detection :
    (∀ (isId : Bool) (snake : String) (m : GoMethod),
      snake ≠ "" →
      validateMethod m = true →
      (splitChar '_' (convertName m.name)).getLastD "" ≠ "id" →
      (((((splitChar '_' (convertName m.name)).headD "") = "post" ∨
        ((splitChar '_' (convertName m.name)).headD "") = "get" ∨
        ((splitChar '_' (convertName m.name)).headD "") = "put" ∨
        ((splitChar '_' (convertName m.name)).headD "") = "delete") →
        methodRouteKey isId snake m =
          strToUpper ((splitChar '_' (convertName m.name)).headD "") ++ " /" ++ snake ++
            (if 1 < (splitChar '_' (convertName m.name)).length then
              "/" ++ strDrop (convertName m.name)
                (strLen ((splitChar '_' (convertName m.name)).headD "") + 1)
            else "")) ∧
      (¬(((splitChar '_' (convertName m.name)).headD "") = "post" ∨
        ((splitChar '_' (convertName m.name)).headD "") = "get" ∨
        ((splitChar '_' (convertName m.name)).headD "") = "put" ∨
        ((splitChar '_' (convertName m.name)).headD "") = "delete") →
        methodRouteKey isId snake m =
          "GET" ++ " /" ++ snake ++ ("/" ++ convertName m.name)))) ∧
    mapLookup (NewRouter [⟨"Baz", none, [⟨"PostBar", 2, 0, true⟩]⟩]).methodMap
        "POST /baz/bar" = some (0, 0) := by
  constructor
  · intro isId snake m hs _hv hid
    exact ⟨fun hverb => methodRouteKey_verb isId snake m hs hverb hid,
      fun hnv => methodRouteKey_noverb isId snake m hs hnv hid⟩
  · decide

/-- Witness for C7 at resource snake `baz`, method `PostBar`. -/
theorem C7_builder_verb_detection_witness :
    methodRouteKey false "baz" ⟨"PostBar", 2, 0, true⟩ =
      strToUpper ((splitChar '_' (convertName "PostBar")).headD "") ++ " /" ++ "baz" ++
        (if 1 < (splitChar '_' (convertName "PostBar")).length then
          "/" ++ strDrop (convertName "PostBar")
            (strLen ((splitChar '_' (convertName "PostBar")).headD "") + 1)
        else "") :=
  (C7_builder_verb_detection.1 false "baz" ⟨"PostBar", 2, 0, true⟩ (by decide) (by decide)
    (by decide)).1 (by decide)

/-- C8: duplicate registration.  For every resource list and key, the built
method map holds exactly the handler of the last registration carrying that
key (so a later duplicate silently overwrites an earlier one and no other
entry changes; `NewRouter` is total, no error is raised).  Concretely, two
resources both registering `GET /baz/foo` leave the second resource's
handler in the table. -/
theorem C8_duplicate_last_wins :
    (∀ (rs : List Resource) (k : String),
      mapLookup (NewRouter rs).methodMap k = lastLookup (routeRegs rs) k) ∧
    mapLookup (NewRouter [⟨"Baz", none, [⟨"Foo", 2, 0, true⟩]⟩,
        ⟨"Baz", none, [⟨"Foo", 2, 0, true⟩]⟩]).methodMap "GET /baz/foo"
      = some (1, 0) := by
  constructor
  · intro rs k
    show mapLookup (buildRouter ⟨[], []⟩ 0 rs).methodMap k = lastLookup (routeRegsAux 0 rs) k
    rw [buildRouter_methodMap, mapLookup_foldl_insert]
    rw [show mapLookup ((⟨[], []⟩ : Router)).methodMap k = none from rfl]
    exact Option.or_none
  · decide

/-- C9: `NewInternalError` always yields message `"InternalError"` and the
package default status 500; a non-error value is stringified, so `Error()`
returns its printed form. -/
theorem C9_new_internal_error :
    (∀ v : GoValue, (NewInternalError v).Message = "InternalError" ∧
      (NewInternalError v).Status = InternalErrorStatusCode) ∧
    InternalErrorStatusCode = 500 ∧
    (∀ s : String, (NewInternalError (.plainVal s)).Error = s) := by
  refine ⟨fun v => ⟨?_, ?_⟩, rfl, fun s => rfl⟩
  · cases v <;> rfl
  · cases v <;> rfl

/-- C10 counterexample: Go's `ParseInt` returns the clamped value
`2^63 - 1` together with a range error for an overflowing digit string, and
`resolvePath` keeps that value in `id` while taking the no-`:id` gap
branch: resolving GET `users/99999999999999999999` yields a nonzero id with
no `/:id` in the key. -/
theorem C10_counterexample_overflow_id :
    (resolvePath [] "GET" "users/99999999999999999999").id = 2 ^ 63 - 1 ∧
    ((2 ^ 63 - 1 : Int) ≠ 0) ∧
    hasIdSeg (resolvePath [] "GET" "users/99999999999999999999").path = false ∧
    (resolvePath [] "GET" "users/99999999999999999999").path
      = "GET /users/99999999999999999999" := by
  exact ⟨by decide, by decide, by decide, by decide⟩

/-- C10 (amended): for every gaps map, method and raw path, (a) a nonzero
returned id implies the key contains `/:id` OR the id is one of the two
`ParseInt` range-clamp values `2^63 - 1` and `-2^63`; and (b) when neither
the raw path nor any registered gap segment contains `':'`, the returned
key contains at most one `':'` (hence at most one `/:id` placeholder). -/
theorem C10_resolve_id_invariant :
    ∀ (gm : List (String × List String)) (m rawPath : String),
      ((resolvePath gm m rawPath).id ≠ 0 →
        hasIdSeg (resolvePath gm m rawPath).path = true ∨
        (resolvePath gm m rawPath).id = 2 ^ 63 - 1 ∨
        (resolvePath gm m rawPath).id = -(2 ^ 63)) ∧
      ((countChar ':' rawPath = 0 ∧ ∀ e ∈ gm, ∀ g ∈ e.2, countChar ':' g = 0) →
        countChar ':' (resolvePath gm m rawPath).path ≤ 1) := by
  intro gm m rawPath
  exact ⟨resolvePath_id_inv gm m rawPath,
    fun h => resolvePath_count gm m rawPath h.1 h.2⟩

/-- Witness for C10 at the request GET `users/5` with an empty gaps map. -/
theorem C10_resolve_id_invariant_witness :
    (resolvePath [] "GET" "users/5").id ≠ 0 ∧
    (hasIdSeg (resolvePath [] "GET" "users/5").path = true ∨
      (resolvePath [] "GET" "users/5").id = 2 ^ 63 - 1 ∨
      (resolvePath [] "GET" "users/5").id = -(2 ^ 63)) ∧
    countChar ':' "users/5" = 0 ∧
    countChar ':' (resolvePath [] "GET" "users/5").path ≤ 1 :=
  ⟨by decide,
   (C10_resolve_id_invariant [] "GET" "users/5").1 (by decide),
   by decide,
   (C10_resolve_id_invariant [] "GET" "users/5").2 ⟨by decide, by simp⟩⟩

end Jas
